import Mathlib

/-!
Verification development for the REDscript conflict scanner
(`redscript_conflicts_report.py` and `common/common_impact.py`).

The Python core is shallowly embedded: each definition below transcribes the
corresponding source function.  File contents are modelled as the list of
their lines (the result of `splitlines()`); reading a file is modelled as an
`Except` value (`.error` = the `except` branch of the `try` around
`read_text`).  JSON-ish Python values (the impact configuration) are modelled
by the inductive type `JVal`, and Python expressions that can raise are
modelled in `Except Unit`.
-/

namespace Redscript

/-- Python `\s` for the ASCII range (whitespace characters used by `strip`,
`lstrip` and the `\s` regex class on the scanner's input lines). -/
def pyIsSpace (c : Char) : Bool :=
  c = ' ' || c = '\t' || c = '\n' || c = '\r' || c = '\x0b' || c = '\x0c'

/-- `line.lstrip()` on the character list. -/
def pyStripL (cs : List Char) : List Char := cs.dropWhile pyIsSpace

/-- `line.rstrip()` on the character list. -/
def pyStripR (cs : List Char) : List Char := (cs.reverse.dropWhile pyIsSpace).reverse

/-- Python `str.strip()`. -/
def pyStrip (s : String) : String := String.mk (pyStripR (pyStripL s.data))

/-- Python `str.lower()` (ASCII; the scanner only compares ASCII keywords). -/
def pyLower (s : String) : String := String.mk (s.data.map Char.toLower)

/-- Python `str.split(sep)` for a one-character separator (the only form the
scanner uses): `''.split(',') = ['']`, `'a,,b'.split(',') = ['a','','b']`. -/
def splitOnChar (sep : Char) : List Char → List (List Char)
  | [] => [[]]
  | c :: rest =>
    if c = sep then [] :: splitOnChar sep rest
    else
      match splitOnChar sep rest with
      | [] => [[c]]
      | h :: t => (c :: h) :: t

/-- Python `<` on strings, character by character over the code points
(lexicographic).  This is the comparison `sorted(...)` uses. -/
def pyStrLtB : List Char → List Char → Bool
  | _, [] => false
  | [], _ :: _ => true
  | a :: as, b :: bs => if a < b then true else if b < a then false else pyStrLtB as bs

/-- Python `a < b` on strings. -/
def pyStrLt (a b : String) : Bool := pyStrLtB a.data b.data

/-- Substring occurrence on character lists (Python's `in` on `str`). -/
def listInfix (needle : List Char) : List Char → Bool
  | [] => needle.isEmpty
  | h :: t => needle.isPrefixOf (h :: t) || listInfix needle t

/-- Python `needle in hay` on strings. -/
def strContains (hay needle : String) : Bool := listInfix needle.data hay.data

/-- The annotation kinds recognised by `ANNOTATION_RE`. -/
inductive Ann where
  | replaceMethod
  | wrapMethod
  | replaceGlobal
deriving DecidableEq, Repr

/-- The spelling of each annotation kind, as captured by group 1 of
`ANNOTATION_RE`. -/
def Ann.name : Ann → String
  | .replaceMethod => "replaceMethod"
  | .wrapMethod => "wrapMethod"
  | .replaceGlobal => "replaceGlobal"

/-- Regex char class `[A-Za-z0-9_]` (the identifier class of `FUNC_RE`, and
the ASCII word class used by `\b`). -/
def isWordChar (c : Char) : Bool := c.isAlpha || c.isDigit || c = '_'

/-- `ANNOTATION_RE.match(line)` for one candidate keyword: after `^\s*@` the
literal keyword, then `\s*\(`, then `([^)]*)`, then `\)\s*$`.  Returns the
captured argument characters (group 2). -/
def matchAnnKeyword (kw : List Char) (afterAt : List Char) : Option (List Char) :=
  if kw.isPrefixOf afterAt then
    let afterKw := (afterAt.drop kw.length).dropWhile pyIsSpace
    match afterKw with
    | '(' :: more =>
      let arg := more.takeWhile (fun c => c ≠ ')')
      match more.dropWhile (fun c => c ≠ ')') with
      | ')' :: tail => if (tail.dropWhile pyIsSpace).isEmpty then some arg else none
      | _ => none
    | _ => none
  else none

/-- `ANNOTATION_RE.match(line)`:
`^\s*@(replaceMethod|wrapMethod|replaceGlobal)\s*\(([^)]*)\)\s*$`.
Returns the kind and the raw argument text. -/
def parseAnnLine (cs : List Char) : Option (Ann × List Char) :=
  match (pyStripL cs) with
  | '@' :: rest =>
    match matchAnnKeyword "replaceMethod".data rest with
    | some arg => some (.replaceMethod, arg)
    | none =>
      match matchAnnKeyword "wrapMethod".data rest with
      | some arg => some (.wrapMethod, arg)
      | none =>
        match matchAnnKeyword "replaceGlobal".data rest with
        | some arg => some (.replaceGlobal, arg)
        | none => none
  | _ => none

/-- The class list derived from a matched annotation line:
`[c.strip() for c in m.group(2).split(',')] if m.group(2) else []`, then
`replaceGlobal` forces `['<global>']`, then an empty list becomes
`['<unknown>']`. -/
def annClasses (ann : Ann) (arg : List Char) : List String :=
  let classes :=
    if arg.isEmpty then []
    else (splitOnChar ',' arg).map (fun cs => pyStrip (String.mk cs))
  let classes := if ann = .replaceGlobal then ["<global>"] else classes
  if classes.isEmpty then ["<unknown>"] else classes

/-- `COMMENT_RE.search(line)`: `^\s*//|^\s*/\*|\*/\s*$`. -/
def isCommentLine (cs : List Char) : Bool :=
  "//".data.isPrefixOf (pyStripL cs) || "/*".data.isPrefixOf (pyStripL cs) ||
    "*/".data.isSuffixOf (pyStripR cs)

/-- The scanner's skip test: `not line.strip() or COMMENT_RE.search(line)`. -/
def isSkipLine (cs : List Char) : Bool := (pyStripL cs).isEmpty || isCommentLine cs

/-- `' func ' in (' ' + line)`. -/
def hasFuncToken (cs : List Char) : Bool := listInfix " func ".data (' ' :: cs)

/-- One candidate position of `FUNC_RE`: `func\s+([A-Za-z0-9_]+)\s*\(`
anchored at the head of `cs` (the `\b` test is done by the caller). -/
def funcMatchAt (cs : List Char) : Option String :=
  if "func".data.isPrefixOf cs then
    let r1 := cs.drop 4
    if (r1.takeWhile pyIsSpace).isEmpty then none
    else
      let r2 := r1.dropWhile pyIsSpace
      let ident := r2.takeWhile isWordChar
      if ident.isEmpty then none
      else
        match (r2.dropWhile isWordChar).dropWhile pyIsSpace with
        | '(' :: _ => some (String.mk ident)
        | _ => none
  else none

/-- Leftmost-match search for `FUNC_RE`, tracking the previous character for
the `\b` word-boundary test (the pattern starts with the word char `f`, so a
boundary holds iff the position is at the start or follows a non-word char). -/
def funcSearchAux : Option Char → List Char → Option String
  | _, [] => none
  | prev, c :: rest =>
    let boundary := match prev with
      | none => true
      | some p => !isWordChar p
    if boundary then
      match funcMatchAt (c :: rest) with
      | some m => some m
      | none => funcSearchAux (some c) rest
    else funcSearchAux (some c) rest

/-- `FUNC_RE.search(line)`: the captured function identifier, if any. -/
def funcSearch (cs : List Char) : Option String := funcSearchAux none cs

/-- `line.lstrip().startswith('@')`. -/
def startsWithAt (cs : List Char) : Bool :=
  match pyStripL cs with
  | '@' :: _ => true
  | _ => false

/-- One entry of `scan_file`'s result (the dict appended in the flush loop;
`relpath`/`mod` are added later by `build_report`, see `REntry`). -/
structure Entry where
  ann : Ann
  cls : String
  method : String
  func_sig : String
  file : String
  line : Nat
deriving DecidableEq, Repr

/-- The scanner's loop state: the `pending` buffer of
`(kind, class list, line number)` triples, and the `entries` accumulator. -/
structure ScanState where
  pending : List (Ann × List String × Nat)
  entries : List Entry
deriving Repr

/-- The flush loop of `scan_file`: one entry per pending annotation per class
named in it. -/
def flushEntries (path : String) (method : String) (sig : String)
    (pending : List (Ann × List String × Nat)) : List Entry :=
  pending.flatMap fun p => p.2.1.map fun c =>
    { ann := p.1, cls := c, method := method, func_sig := sig,
      file := path, line := p.2.2 }

/-- The body of `scan_file`'s `for idx, line in enumerate(lines, start=1)`
loop, for a single line. -/
def scanStep (path : String) (st : ScanState) (idx : Nat) (line : String) : ScanState :=
  let cs := line.data
  match parseAnnLine cs with
  | some (ann, arg) =>
    { st with pending := st.pending ++ [(ann, annClasses ann arg, idx)] }
  | none =>
    if isSkipLine cs then st
    else if hasFuncToken cs then
      match funcSearch cs with
      | some method =>
        if st.pending.isEmpty then { st with pending := [] }
        else
          { pending := [],
            entries := st.entries ++ flushEntries path method (pyStrip line) st.pending }
      | none => { st with pending := [] }
    else
      if !st.pending.isEmpty && !startsWithAt cs then { st with pending := [] } else st

/-- The scanning loop over the file's lines (1-based line numbers, as in
`enumerate(lines, start=1)`). -/
def scanLines (path : String) (lines : List String) : List Entry :=
  (lines.enum.foldl (fun st il => scanStep path st (il.1 + 1) il.2)
    { pending := [], entries := [] }).entries

/-- `scan_file(path)`: the `try`/`except` around `read_text` is modelled by
the `Except` argument — an unreadable file is `.error` and yields `[]`. -/
def scan_file (readResult : Except Unit (List String)) (path : String) : List Entry :=
  match readResult with
  | .error _ => []
  | .ok lines => scanLines path lines

/-- The parse phase of `build_report` (step 2): concatenate `scan_file` over
the discovered files, each given as `(path, read result)`. -/
def parsePhase (files : List (String × Except Unit (List String))) : List Entry :=
  files.foldl (fun acc f => acc ++ scan_file f.2 f.1) []

/-! ### Enrichment (`build_report` step 3): relative path and mod attribution -/

/-- `list.index(x)` over strings (callers guard with `contains`, as the
Python code guards with `in`). -/
def listIndexOf (x : String) : List String → Nat
  | [] => 0
  | y :: ys => if y = x then 0 else listIndexOf x ys + 1

/-- The `mod` heuristic of `build_report` applied to the relative-path
segments (`rel_parts`): the branch ladder over `parts_lower` containing
`r6` / `scripts`, defaulting to the first segment, else `<root>`. -/
def modOf (parts : List String) : String :=
  let partsLower := parts.map pyLower
  if partsLower.contains "r6" then
    let i := listIndexOf "r6" partsLower
    if i + 1 < partsLower.length && partsLower.getD (i + 1) "" == "scripts"
        && i + 2 < parts.length then
      parts.getD (i + 2) "<root>"
    else if i + 1 < parts.length then
      parts.getD (i + 1) "<root>"
    else "<root>"
  else if partsLower.contains "scripts" then
    let j := listIndexOf "scripts" partsLower
    if j + 1 < parts.length then
      parts.getD (j + 1) "<root>"
    else
      match parts with
      | [] => "<root>"
      | p :: _ => p
  else
    match parts with
    | [] => "<root>"
    | p :: _ => p

/-- `p.resolve().relative_to(root)` with the `except` fallback to `p.name`,
on paths modelled as segment lists: the segments after the root prefix, or
just the final segment when the file is outside the root. -/
def relPartsOf (root file : List String) : List String :=
  if root.isPrefixOf file then file.drop root.length else [file.getLastD ""]

/-- The `mod` value `build_report` attributes to a file, given the root and
the file as absolute-path segment lists. -/
def modFor (root file : List String) : String := modOf (relPartsOf root file)

/-! ### Grouping (`build_report` step 4) -/

/-- An enriched entry: an `Entry` after `build_report` has set `relpath`
and `mod` (the dict is extended in place in Python). -/
structure REntry where
  ann : Ann
  cls : String
  method : String
  func_sig : String
  file : String
  relpath : String
  mod : String
  line : Nat
deriving DecidableEq, Repr

/-- The grouping key of `by_key`: `(e['annotation'], e['class'], e['method'])`. -/
abbrev GKey := Ann × String × String

def REntry.gkey (e : REntry) : GKey := (e.ann, e.cls, e.method)

/-- A Python `dict` modelled as an insertion-ordered association list.
`upsertWith` is the `defaultdict` access `d[k]` followed by an update `f`:
existing keys are updated in place, fresh keys go to the end with the
default initial value. -/
def upsertWith {α β : Type} [DecidableEq α] (d : List (α × β)) (k : α)
    (f : β → β) (dflt : β) : List (α × β) :=
  match d with
  | [] => [(k, f dflt)]
  | (k', v) :: rest =>
    if k' = k then (k', f v) :: rest else (k', v) :: upsertWith rest k f dflt

/-- Association-list lookup (the value a Python dict holds under `k`). -/
def alookup {α β : Type} [DecidableEq α] (d : List (α × β)) (k : α) : Option β :=
  match d with
  | [] => none
  | (k', v) :: rest => if k' = k then some v else alookup rest k

/-- `by_key`: bucket the entries by `(annotation, class, method)`
(`by_key[key].append(e)` on a `defaultdict(list)`). -/
def byKeyOf (es : List REntry) : List (GKey × List REntry) :=
  es.foldl (fun d e => upsertWith d e.gkey (fun vs => vs ++ [e]) []) []

/-- The per-`(class, method)` buckets of `by_cm`:
`{'replace': [], 'wrap': [], 'other': []}`. -/
structure Kinds where
  replace : List REntry
  wrap : List REntry
  other : List REntry
deriving DecidableEq, Repr

/-- The bucket an annotation kind is routed to. -/
def Kinds.ofAnn (ks : Kinds) : Ann → List REntry
  | .replaceMethod => ks.replace
  | .wrapMethod => ks.wrap
  | .replaceGlobal => ks.other

/-- `by_cm[(cls, meth)][bucket].extend(lst)` for the bucket selected by the
annotation kind (`replaceMethod` → replace, `wrapMethod` → wrap, else other). -/
def addKind (ks : Kinds) (ann : Ann) (lst : List REntry) : Kinds :=
  match ann with
  | .replaceMethod => { ks with replace := ks.replace ++ lst }
  | .wrapMethod => { ks with wrap := ks.wrap ++ lst }
  | .replaceGlobal => { ks with other := ks.other ++ lst }

/-- `by_cm`: partition each `(class, method)` key's entries by kind, built by
iterating `by_key.items()` in insertion order and extending the bucket the
annotation kind selects. -/
def byCMOf (byKey : List (GKey × List REntry)) : List ((String × String) × Kinds) :=
  byKey.foldl
    (fun d p => upsertWith d (p.1.2.1, p.1.2.2) (fun ks => addKind ks p.1.1 p.2) ⟨[], [], []⟩)
    []

/-- `len({x['file'] for x in l})`: the number of distinct source files. -/
def distinctFiles (l : List REntry) : Nat := ((l.map (·.file)).eraseDups).length

/-- Insert into a strictly ascending list, dropping duplicates (helper for
`sorted(set(...))`). -/
def insertUniq (a : String) : List String → List String
  | [] => [a]
  | b :: bs =>
    if pyStrLt a b then a :: b :: bs
    else if a = b then b :: bs
    else b :: insertUniq a bs

/-- `sorted({... for x in l})`: the strictly ascending enumeration of the
distinct elements. -/
def sortedDedup (l : List String) : List String := l.foldr insertUniq []

/-- `sorted({x.get('mod', '<unknown>') for x in l})` (every enriched entry
carries its `mod`). -/
def sortedMods (l : List REntry) : List String := sortedDedup (l.map (·.mod))

/-- One element of the report's `conflicts` list. -/
structure ConflictGroup where
  cls : String
  method : String
  count : Nat
  mods : List String
  occurrences : List REntry
deriving DecidableEq, Repr

/-- One element of the report's `wrap_coexistence` list. -/
structure WrapGroup where
  cls : String
  method : String
  wrap_count : Nat
  mods : List String
  occurrences : List REntry
deriving DecidableEq, Repr

/-- One element of the report's `replace_wrap_coexistence` list. -/
structure RWGroup where
  cls : String
  method : String
  replace_count : Nat
  wrap_count : Nat
  mods_replace : List String
  mods_wrap : List String
  occurrences_replace : List REntry
  occurrences_wrap : List REntry
deriving DecidableEq, Repr

/-- The `conflicts` list built by the grouping loop of `build_report`: for
each `(cls, meth)` of `by_cm` in order, emit a group when
`repl and len({x['file'] for x in repl}) > 1`. -/
def conflictsOf (es : List REntry) : List ConflictGroup :=
  (byCMOf (byKeyOf es)).filterMap fun p =>
    if !p.2.replace.isEmpty && 1 < distinctFiles p.2.replace then
      some { cls := p.1.1, method := p.1.2, count := p.2.replace.length,
             mods := sortedMods p.2.replace, occurrences := p.2.replace }
    else none

/-- The `wrap_coexistence` list: same loop, condition
`wrap and len({x['file'] for x in wrap}) > 1`. -/
def wrapCoexistenceOf (es : List REntry) : List WrapGroup :=
  (byCMOf (byKeyOf es)).filterMap fun p =>
    if !p.2.wrap.isEmpty && 1 < distinctFiles p.2.wrap then
      some { cls := p.1.1, method := p.1.2, wrap_count := p.2.wrap.length,
             mods := sortedMods p.2.wrap, occurrences := p.2.wrap }
    else none

/-- The `replace_wrap_coexistence` list: same loop, condition
`repl and wrap` (both buckets non-empty, no distinct-file threshold). -/
def replaceWrapOf (es : List REntry) : List RWGroup :=
  (byCMOf (byKeyOf es)).filterMap fun p =>
    if !p.2.replace.isEmpty && !p.2.wrap.isEmpty then
      some { cls := p.1.1, method := p.1.2,
             replace_count := p.2.replace.length, wrap_count := p.2.wrap.length,
             mods_replace := sortedMods p.2.replace, mods_wrap := sortedMods p.2.wrap,
             occurrences_replace := p.2.replace, occurrences_wrap := p.2.wrap }
    else none

/-! ### Impact scorer (`common/common_impact.py`)

Python values flowing through the impact configuration are modelled by the
JSON-like type `JVal`; expressions that can raise (`int(...)`, `.get` on a
non-dict, `.items()` on a non-dict) live in `Except Unit`, and the outer
`try`/`except` of `compute_impact_unified` maps any error to the safe empty
result. -/

/-- A JSON-like Python value (what `json.loads` can produce for the impact
configuration, plus `None`). -/
inductive JVal where
  | null
  | bool (b : Bool)
  | int (n : Int)
  | str (s : String)
  | arr (xs : List JVal)
  | obj (fields : List (String × JVal))

/-- Python truthiness of a `JVal`. -/
def JVal.truthy : JVal → Bool
  | .null => false
  | .bool b => b
  | .int n => !(n == 0)
  | .str s => !s.data.isEmpty
  | .arr xs => !xs.isEmpty
  | .obj fs => !fs.isEmpty

/-- Python `a or b`. -/
def jor (a b : JVal) : JVal := if a.truthy then a else b

/-- Key lookup in an object's field list (JSON objects have unique keys). -/
def jfind (fields : List (String × JVal)) (k : String) : Option JVal :=
  match fields with
  | [] => none
  | (k', v) :: rest => if k' = k then some v else jfind rest k

/-- `d.get(k)`: `None` when absent; raises when `d` is not a dict. -/
def JVal.getE : JVal → String → Except Unit JVal
  | .obj fs, k => .ok ((jfind fs k).getD .null)
  | _, _ => .error ()

/-- `d.get(k, dflt)`: raises when `d` is not a dict. -/
def JVal.getDE : JVal → String → JVal → Except Unit JVal
  | .obj fs, k, dflt => .ok ((jfind fs k).getD dflt)
  | _, _, _ => .error ()

/-- Integer literal parse used by Python `int(str)`: optional sign and a
non-empty digit string, after stripping whitespace. -/
def parseIntChars : List Char → Option Int
  | [] => none
  | '-' :: ds =>
    if ds ≠ [] && ds.all Char.isDigit then
      some (-(ds.foldl (fun a c => a * 10 + (c.toNat - '0'.toNat)) 0 : Nat)) else none
  | '+' :: ds =>
    if ds ≠ [] && ds.all Char.isDigit then
      some ((ds.foldl (fun a c => a * 10 + (c.toNat - '0'.toNat)) 0 : Nat)) else none
  | ds =>
    if ds.all Char.isDigit then
      some ((ds.foldl (fun a c => a * 10 + (c.toNat - '0'.toNat)) 0 : Nat)) else none

/-- Python `int(x)`: identity on ints, 0/1 on bools, digit parse on strings,
raises otherwise (`None`, lists, dicts). -/
def pyIntE : JVal → Except Unit Int
  | .int n => .ok n
  | .bool b => .ok (if b then 1 else 0)
  | .str s =>
    match parseIntChars (pyStrip s).data with
    | some n => .ok n
    | none => .error ()
  | _ => .error ()

/-- The embedded fallback default, `_IMPACT_DEFAULT_CONFIG['thresholds']`. -/
def defaultThresholds : JVal :=
  .obj [("critical", .int 95), ("high", .int 70), ("medium", .int 45)]

/-- The embedded fallback default, `_IMPACT_DEFAULT_CONFIG['weights']`. -/
def defaultWeights : JVal :=
  .obj [
    ("per_mod", .int 10),
    ("class_keywords", .obj [
      ("vehicle", .int 15), ("quest", .int 12), ("player", .int 12),
      ("inventory", .int 10), ("damage", .int 10), ("ui", .int 8),
      ("hud", .int 8), ("ink", .int 6)]),
    ("method_keywords", .obj [
      ("update", .int 12), ("tick", .int 12), ("initialize", .int 10),
      ("init", .int 10), ("onattach", .int 8), ("onunattach", .int 6),
      ("refresh", .int 8), ("calculate", .int 8), ("resolve", .int 8)]),
    ("signature", .obj [("per_arg", .int 3), ("has_return", .int 6)]),
    ("wrap_coexist_bonus", .int 12)]

/-- `_IMPACT_DEFAULT_CONFIG`. -/
def defaultImpactConfig : JVal :=
  .obj [("thresholds", defaultThresholds), ("weights", defaultWeights)]

/-- The validity test `_load_external_default` applies to a parsed external
file: `isinstance(data, dict) and 'thresholds' in data and 'weights' in data`. -/
def isValidExternal : JVal → Bool
  | .obj fs => (jfind fs "thresholds").isSome && (jfind fs "weights").isSome
  | _ => false

/-- `get_default_impact_config()`, parameterised by the external state: the
parsed content of the first existing external `impact_config.json`
(environment override, cwd, or module-relative), `none` when no candidate
loads.  An invalid external file falls back to the embedded default. -/
def get_default_impact_config (fsCfg : Option JVal) : JVal :=
  match fsCfg with
  | some d => if isValidExternal d then d else defaultImpactConfig
  | none => defaultImpactConfig

/-- `cfg = config or get_default_impact_config()` (a `None` or falsy config
argument falls back to the default profile). -/
def resolveConfig (fsCfg : Option JVal) (config : Option JVal) : JVal :=
  match config with
  | some c => if c.truthy then c else get_default_impact_config fsCfg
  | none => get_default_impact_config fsCfg

/-- `_SYMPTOM_KEYWORDS`, in source order. -/
def symptomKeywords : List (String × List String) :=
  [("uiHud", ["ui", "hud", "ink"]),
   ("player", ["player", "puppet", "equipment"]),
   ("vehicle", ["vehicle"]),
   ("quest", ["quest", "journal", "fact"]),
   ("inventory", ["inventory"]),
   ("damage", ["damage", "hit"])]

/-- `classify_conflict_symptom(cls_name, meth)`: first keyword group whose
keyword occurs in the lowercased class name; `other` otherwise (the `meth`
parameter is unused in the source as well). -/
def classify_conflict_symptom (clsName : String) (_meth : String := "") : String :=
  let s := pyLower clsName
  match symptomKeywords.find? (fun p => p.2.any (fun k => strContains s k)) with
  | some p => p.1
  | none => "other"

/-- The keyword-stacking loop
`for kw, w in items: if kw in target: score += int(w)` (the `int(w)`
conversion is only evaluated for matching keywords, as in the source);
raises when `items` is not a dict. -/
def keywordScoreE (items : JVal) (target : String) : Except Unit Int :=
  match items with
  | .obj fs =>
    fs.foldlM (fun acc p =>
      if strContains target p.1 then
        do pure (acc + (← pyIntE p.2))
      else pure acc) 0
  | _ => .error ()

/-- The argument text captured by `re.search(r'\((.*?)\)', func_sig)`: the
characters between the first `(` and the first `)` after it (no match when
either parenthesis is missing). -/
def innerParen (cs : List Char) : Option (List Char) :=
  if cs.contains '(' then
    let after := (cs.dropWhile (fun c => c ≠ '(')).drop 1
    if after.contains ')' then some (after.takeWhile (fun c => c ≠ ')')) else none
  else none

/-- `args_count`: the number of non-blank comma-separated segments of the
captured argument text (0 when there is no match or the text is blank). -/
def argsCountOf (sig : String) : Nat :=
  match innerParen sig.data with
  | some inner =>
    let innerS := pyStrip (String.mk inner)
    if innerS.data.isEmpty then 0
    else (splitOnChar ',' innerS.data).countP (fun a => !(pyStrip (String.mk a)).data.isEmpty)
  | none => 0

/-- The characters after the first occurrence of `pat` (Python
`s.split(pat, 1)[1]` when `pat in s`). -/
def afterInfix (pat : List Char) : List Char → List Char
  | [] => []
  | c :: rest =>
    if pat.isPrefixOf (c :: rest) then (c :: rest).drop pat.length
    else afterInfix pat rest

/-- `has_return`: `'->' in func_sig` and the stripped part after the first
`->` is non-empty and not `void` (case-insensitively). -/
def hasReturnOf (sig : String) : Bool :=
  if strContains sig "->" then
    let retPart := String.mk (pyStripR (pyStripL (afterInfix "->".data sig.data)))
    !retPart.data.isEmpty && pyLower retPart ≠ "void"
  else false

/-- The scoring block of `compute_impact_unified` up to the `has_return`
bonus (everything before the wrap-coexistence bonus), over the already
bound `weights` dict. -/
def scoreBaseE (weights : JVal) (cls meth : String) (mods : List String)
    (entries : List REntry) : Except Unit Int := do
  let modCount : Int := (mods.eraseDups).length
  let perMod ← pyIntE (← weights.getDE "per_mod" (.int 0))
  let score0 := perMod * modCount
  let clsL := pyLower cls
  let methL := pyLower meth
  let score1 := score0 + (← keywordScoreE (jor (← weights.getE "class_keywords") (.obj [])) clsL)
  let score2 := score1 + (← keywordScoreE (jor (← weights.getE "method_keywords") (.obj [])) methL)
  let sigW := jor (← weights.getE "signature") (.obj [])
  let perArg ← pyIntE (← sigW.getDE "per_arg" (.int 0))
  let hasRetW ← pyIntE (← sigW.getDE "has_return" (.int 0))
  let funcSig := match entries with
    | [] => ""
    | e :: _ => e.func_sig
  let score3 := score2 + perArg * (argsCountOf funcSig : Int)
  pure (if hasReturnOf funcSig then score3 + hasRetW else score3)

/-- The wrap-coexistence bonus `int(weights.get('wrap_coexist_bonus', 0))`. -/
def wrapBonus2E (weights : JVal) : Except Unit Int :=
  do pyIntE (← weights.getDE "wrap_coexist_bonus" (.int 0))

/-- The wrap-coexistence bonus read from a whole config (the same lookups
`compute_impact_unified` performs before adding the bonus). -/
def wrapBonusE (cfg : JVal) : Except Unit Int :=
  do wrapBonus2E (jor (← cfg.getE "weights") (.obj []))

/-- `int(thresholds.get(key, dflt))`. -/
def thrE (t : JVal) (key : String) (dflt : Int) : Except Unit Int := do
  pyIntE (← t.getDE key (.int dflt))

/-- The severity ladder
`if score >= int(thresholds.get('critical', 80)) ... elif ... elif ... else`,
with the lazy evaluation of the source: lower thresholds are only converted
when the higher comparisons fail. -/
def severityE (thresholds : JVal) (score : Int) : Except Unit String := do
  let crit ← thrE thresholds "critical" 80
  if crit ≤ score then pure "Critical"
  else do
    let high ← thrE thresholds "high" 60
    if high ≤ score then pure "High"
    else do
      let med ← thrE thresholds "medium" 40
      if med ≤ score then pure "Medium" else pure "Low"

/-- The message token: `impact.symptom.<code>` plus the wrap-coexistence
token when applicable. -/
def mkMessage (cls : String) (wrap : Bool) : String :=
  "impact.symptom." ++ classify_conflict_symptom cls ++
    (if wrap then " impact.extra.wrapCoexist" else "")

/-- The result dict `{'severity': ..., 'message': ...}`. -/
structure ImpactResult where
  severity : String
  message : String
deriving DecidableEq, Repr

/-- The body of `compute_impact_unified`'s `try` block, over the resolved
config. -/
def computeBodyE (cfg : JVal) (cls meth : String) (mods : List String)
    (entries : List REntry) (wrapCoexist : Bool) : Except Unit ImpactResult := do
  let weights := jor (← cfg.getE "weights") (.obj [])
  let thresholds := jor (← cfg.getE "thresholds") (.obj [])
  let base ← scoreBaseE weights cls meth mods entries
  let score ← if wrapCoexist then do pure (base + (← wrapBonus2E weights)) else pure base
  let sev ← severityE thresholds score
  pure { severity := sev, message := mkMessage cls wrapCoexist }

/-- `compute_impact_unified(cls, meth, mods, entries, config=..., wrap_coexist=...)`:
the `try`/`except` maps any internal error to `{'severity': '', 'message': ''}`.
`fsCfg` is the external default-config state consulted when `config` is
`None` or falsy (see `get_default_impact_config`). -/
def compute_impact_unified (fsCfg : Option JVal) (cls meth : String)
    (mods : List String) (entries : List REntry) (config : Option JVal)
    (wrapCoexist : Bool) : ImpactResult :=
  match computeBodyE (resolveConfig fsCfg config) cls meth mods entries wrapCoexist with
  | .ok r => r
  | .error _ => { severity := "", message := "" }

/-- The four severity labels in ascending order, with rank 0 for the safe
empty severity. -/
def sevRank (s : String) : Nat :=
  if s = "Low" then 1
  else if s = "Medium" then 2
  else if s = "High" then 3
  else if s = "Critical" then 4
  else 0

/-! ### Concrete sample data (used by witnesses and concrete checks) -/

/-- A representative function signature line. -/
def sampleSigStr : String := "func Bar(a: Int32) -> Int32"

/-- Enriched sample: a replace of `Foo.Bar` in file `f1` owned by `ModB`. -/
def sampleReplA : REntry :=
  ⟨.replaceMethod, "Foo", "Bar", sampleSigStr, "/root/A/f1.reds", "A/f1.reds", "ModB", 1⟩

/-- Enriched sample: a replace of `Foo.Bar` in file `f2` owned by `ModA`. -/
def sampleReplB : REntry :=
  ⟨.replaceMethod, "Foo", "Bar", sampleSigStr, "/root/B/f2.reds", "B/f2.reds", "ModA", 1⟩

/-- Enriched sample: a wrap of `Foo.Bar` in file `f2`. -/
def sampleWrapB : REntry :=
  ⟨.wrapMethod, "Foo", "Bar", sampleSigStr, "/root/B/f2.reds", "B/f2.reds", "ModA", 3⟩

/-- Enriched sample: a wrap of `Foo.Bar` in file `f1`. -/
def sampleWrapA : REntry :=
  ⟨.wrapMethod, "Foo", "Bar", sampleSigStr, "/root/A/f1.reds", "A/f1.reds", "ModB", 3⟩

/-- A sample scan result: `Foo.Bar` replaced in two files and wrapped in two
files. -/
def sampleEs : List REntry := [sampleReplA, sampleReplB, sampleWrapB, sampleWrapA]

/-- The conflict group the sample produces. -/
def sampleConflict : ConflictGroup :=
  ⟨"Foo", "Bar", 2, ["ModA", "ModB"], [sampleReplA, sampleReplB]⟩

/-- The wrap-coexistence group the sample produces. -/
def sampleWrapG : WrapGroup :=
  ⟨"Foo", "Bar", 2, ["ModA", "ModB"], [sampleWrapB, sampleWrapA]⟩

/-- The replace/wrap coexistence group the sample produces. -/
def sampleRW : RWGroup :=
  ⟨"Foo", "Bar", 2, 2, ["ModA", "ModB"], ["ModA", "ModB"],
   [sampleReplA, sampleReplB], [sampleWrapB, sampleWrapA]⟩

/-- Single-file sample: one file both replaces and wraps `Foo.Bar`. -/
def sfRepl : REntry :=
  ⟨.replaceMethod, "Foo", "Bar", sampleSigStr, "/root/M/one.reds", "M/one.reds", "ModM", 1⟩

/-- Single-file sample: the wrap in the same file. -/
def sfWrap : REntry :=
  ⟨.wrapMethod, "Foo", "Bar", sampleSigStr, "/root/M/one.reds", "M/one.reds", "ModM", 5⟩

/-- The single-file scan result. -/
def sfEs : List REntry := [sfRepl, sfWrap]

/-- The replace/wrap group the single-file sample produces (no conflict and
no wrap-coexistence group accompanies it). -/
def sfRW : RWGroup := ⟨"Foo", "Bar", 1, 1, ["ModM"], ["ModM"], [sfRepl], [sfWrap]⟩

/-- An external `impact_config.json` whose critical threshold is 0 (valid by
`_load_external_default`'s check: a dict with both top-level keys). -/
def extCfgCritZero : JVal :=
  .obj [("thresholds", .obj [("critical", .int 0)]), ("weights", .obj [])]

/-- An entry whose signature has three arguments and no return type. -/
def sig3Entry : REntry :=
  ⟨.replaceMethod, "Foo", "Bar", "func Bar(a: Int32, b: Int32, c: Int32)",
   "/root/A/f1.reds", "A/f1.reds", "ModA", 1⟩

/-! ### Lemmas: insertion-ordered dicts -/

theorem alookup_upsertWith {α β : Type} [DecidableEq α] (d : List (α × β)) (k k' : α)
    (f : β → β) (dflt : β) :
    alookup (upsertWith d k f dflt) k' =
      if k' = k then some (f ((alookup d k).getD dflt)) else alookup d k' := by
  induction d with
  | nil =>
    simp only [upsertWith, alookup]
    split_ifs with h1 h2 h2 <;> first
      | rfl
      | exact absurd h1.symm h2
      | exact absurd h2.symm h1
  | cons hd tl ih =>
    obtain ⟨k₀, v₀⟩ := hd
    by_cases h0 : k₀ = k
    · subst h0
      by_cases h1 : k' = k₀
      · subst h1
        simp [upsertWith, alookup]
      · have h1' : ¬ k₀ = k' := fun h' => h1 h'.symm
        simp [upsertWith, alookup, h1, h1']
    · by_cases h1 : k₀ = k'
      · subst h1
        have hk : ¬ k₀ = k := h0
        simp [upsertWith, alookup, hk]
      · simp [upsertWith, alookup, h0, h1, ih]

theorem keys_upsertWith {α β : Type} [DecidableEq α] (d : List (α × β)) (k : α)
    (f : β → β) (dflt : β) :
    (upsertWith d k f dflt).map Prod.fst =
      if (alookup d k).isSome then d.map Prod.fst else d.map Prod.fst ++ [k] := by
  induction d with
  | nil => simp [upsertWith, alookup]
  | cons hd tl ih =>
    obtain ⟨k₀, v₀⟩ := hd
    by_cases h0 : k₀ = k
    · subst h0; simp [upsertWith, alookup]
    · simp [upsertWith, h0, alookup, ih]
      by_cases hs : (alookup tl k).isSome <;> simp [hs]

theorem alookup_eq_none {α β : Type} [DecidableEq α] (d : List (α × β)) (k : α) :
    alookup d k = none ↔ k ∉ d.map Prod.fst := by
  induction d with
  | nil => simp [alookup]
  | cons hd tl ih =>
    obtain ⟨k₀, v₀⟩ := hd
    by_cases h0 : k₀ = k
    · subst h0; simp [alookup]
    · have hk : ¬ k = k₀ := fun h' => h0 h'.symm
      simp [alookup, h0, ih, hk]

theorem nodup_keys_upsertWith {α β : Type} [DecidableEq α] (d : List (α × β)) (k : α)
    (f : β → β) (dflt : β) (h : (d.map Prod.fst).Nodup) :
    ((upsertWith d k f dflt).map Prod.fst).Nodup := by
  rw [keys_upsertWith]
  by_cases hs : (alookup d k).isSome
  · simpa [hs] using h
  · have hk : k ∉ d.map Prod.fst := by
      rw [← alookup_eq_none d k]
      cases hv : alookup d k
      · rfl
      · simp [hv] at hs
    simp [hs, List.nodup_append, h, hk]

/-- Generic characterisation of a `defaultdict`-style fold: the value under
`k` after folding is the updates of all relevant items applied to the
existing value (or to the default when the key is fresh). -/
theorem alookup_foldl_upsert {α β ι : Type} [DecidableEq α]
    (keyf : ι → α) (updf : ι → β → β) (dflt : β) (k : α) :
    ∀ (items : List ι) (d : List (α × β)),
    alookup (items.foldl (fun d i => upsertWith d (keyf i) (updf i) dflt) d) k =
      (match alookup d k with
       | some v => some ((items.filter (fun i => keyf i = k)).foldl (fun v i => updf i v) v)
       | none =>
         if (items.filter (fun i => keyf i = k)).isEmpty then none
         else some ((items.filter (fun i => keyf i = k)).foldl (fun v i => updf i v) dflt)) := by
  intro items
  induction items with
  | nil => intro d; cases hv : alookup d k <;> simp [hv]
  | cons i rest ih =>
    intro d
    rw [List.foldl_cons, ih]
    rw [alookup_upsertWith]
    by_cases hk : keyf i = k
    · have hk' : k = keyf i := hk.symm
      rw [if_pos hk', ← hk]
      have hfc : (List.filter (fun j => decide (keyf j = keyf i)) (i :: rest)) =
          i :: List.filter (fun j => decide (keyf j = keyf i)) rest := by
        simp [List.filter_cons]
      rw [hfc]
      cases hv : alookup d (keyf i) <;> simp [hv, List.foldl_cons]
    · have hk' : ¬ k = keyf i := fun h' => hk h'.symm
      rw [if_neg hk']
      have hfc : (List.filter (fun j => decide (keyf j = k)) (i :: rest)) =
          List.filter (fun j => decide (keyf j = k)) rest := by
        simp [List.filter_cons, hk]
      rw [hfc]

theorem nodup_keys_foldl_upsert {α β ι : Type} [DecidableEq α]
    (keyf : ι → α) (updf : ι → β → β) (dflt : β) :
    ∀ (items : List ι) (d : List (α × β)), (d.map Prod.fst).Nodup →
    (((items.foldl (fun d i => upsertWith d (keyf i) (updf i) dflt) d)).map Prod.fst).Nodup := by
  intro items
  induction items with
  | nil => intro d h; simpa using h
  | cons i rest ih =>
    intro d h
    rw [List.foldl_cons]
    exact ih _ (nodup_keys_upsertWith _ _ _ _ h)

theorem filter_key_of_nodup {α β : Type} [DecidableEq α] (k : α) :
    ∀ (d : List (α × β)), (d.map Prod.fst).Nodup →
    d.filter (fun p => p.1 = k) =
      (match alookup d k with
       | some v => [(k, v)]
       | none => []) := by
  intro d
  induction d with
  | nil => intro _; simp [alookup]
  | cons hd tl ih =>
    intro h
    obtain ⟨k₀, v₀⟩ := hd
    simp only [List.map_cons, List.nodup_cons] at h
    by_cases h0 : k₀ = k
    · subst h0
      have htl : alookup tl k₀ = none := (alookup_eq_none tl k₀).mpr h.1
      have hnil : tl.filter (fun p => p.1 = k₀) = [] := by
        rw [ih h.2, htl]
      simp [List.filter_cons, hnil, alookup]
    · simp [List.filter_cons, h0, alookup, ih h.2]

theorem filter_key_nil_of_absent {α β γ : Type} [DecidableEq α]
    (F : α × β → Option γ) (keyG : γ → α) (k : α)
    (hF : ∀ p g, F p = some g → keyG g = p.1) :
    ∀ (d : List (α × β)), (∀ p ∈ d, p.1 ≠ k) →
    (d.filterMap F).filter (fun g => keyG g = k) = [] := by
  intro d
  induction d with
  | nil => intro _; simp
  | cons hd tl ih =>
    intro h
    rw [List.filterMap_cons]
    cases hFh : F hd with
    | none => exact ih (fun p hp => h p (List.mem_cons_of_mem _ hp))
    | some g =>
      have hkg : keyG g ≠ k := by
        rw [hF hd g hFh]
        exact h hd (List.mem_cons_self hd tl)
      rw [List.filter_cons, if_neg (by simp [hkg])]
      exact ih (fun p hp => h p (List.mem_cons_of_mem _ hp))

/-- The groups a key-faithful `filterMap` over a dict with distinct keys
contributes for one key: exactly the image of that key's value. -/
theorem filterMap_filter_key {α β γ : Type} [DecidableEq α]
    (F : α × β → Option γ) (keyG : γ → α) (k : α)
    (hF : ∀ p g, F p = some g → keyG g = p.1) :
    ∀ (d : List (α × β)), (d.map Prod.fst).Nodup →
    (d.filterMap F).filter (fun g => keyG g = k) =
      (match alookup d k with
       | some v => (F (k, v)).toList
       | none => []) := by
  intro d
  induction d with
  | nil => intro _; simp [alookup]
  | cons hd tl ih =>
    intro h
    obtain ⟨k₀, v₀⟩ := hd
    simp only [List.map_cons, List.nodup_cons] at h
    rw [List.filterMap_cons]
    by_cases h0 : k₀ = k
    · subst h0
      have htl : ∀ p ∈ tl, p.1 ≠ k₀ := by
        intro p hp hpk
        exact h.1 (hpk ▸ List.mem_map_of_mem Prod.fst hp)
      have hrest := filter_key_nil_of_absent F keyG k₀ hF tl htl
      cases hFh : F (k₀, v₀) with
      | none => simp [alookup, hrest, hFh]
      | some g =>
        have hgk : keyG g = k₀ := hF _ _ hFh
        simp [alookup, List.filter_cons, hgk, hrest, hFh]
    · cases hFh : F (k₀, v₀) with
      | none => simp [alookup, h0, ih h.2, hFh]
      | some g =>
        have hgk : keyG g = k₀ := hF _ _ hFh
        have : ¬ keyG g = k := by rw [hgk]; exact h0
        simp [alookup, h0, List.filter_cons, this, ih h.2, hFh]

theorem foldl_append_singleton {β : Type} (rel : List β) (v : List β) :
    rel.foldl (fun vs e => vs ++ [e]) v = v ++ rel := by
  induction rel generalizing v with
  | nil => simp
  | cons e rest ih => simp [ih, List.append_assoc]

/-! ### Lemmas: the grouping phase -/

theorem addKind_ofAnn (ks : Kinds) (a b : Ann) (lst : List REntry) :
    (addKind ks a lst).ofAnn b = if a = b then ks.ofAnn b ++ lst else ks.ofAnn b := by
  cases a <;> cases b <;> simp [addKind, Kinds.ofAnn]

theorem foldl_addKind_ofAnn (a : Ann) :
    ∀ (rel : List (GKey × List REntry)) (init : Kinds),
    (rel.foldl (fun ks p => addKind ks p.1.1 p.2) init).ofAnn a =
      init.ofAnn a ++ (rel.filter (fun p => p.1.1 = a)).flatMap (fun p => p.2) := by
  intro rel
  induction rel with
  | nil => intro init; simp
  | cons p rest ih =>
    intro init
    rw [List.foldl_cons, ih, addKind_ofAnn]
    by_cases hp : p.1.1 = a
    · rw [if_pos hp]
      have : (List.filter (fun q => decide (q.1.1 = a)) (p :: rest)) =
          p :: List.filter (fun q => decide (q.1.1 = a)) rest := by
        simp [List.filter_cons, hp]
      rw [this, List.flatMap_cons, List.append_assoc]
    · rw [if_neg hp]
      have : (List.filter (fun q => decide (q.1.1 = a)) (p :: rest)) =
          List.filter (fun q => decide (q.1.1 = a)) rest := by
        simp [List.filter_cons, hp]
      rw [this]

/-- `by_key` lookup characterisation: the bucket under a key is the filter of
the entries with that key, present exactly when non-empty. -/
theorem byKey_lookup (es : List REntry) (k : GKey) :
    alookup (byKeyOf es) k =
      (if (es.filter (fun e => e.gkey = k)).isEmpty then none
       else some (es.filter (fun e => e.gkey = k))) := by
  have h := alookup_foldl_upsert (fun e : REntry => e.gkey)
    (fun e vs => vs ++ [e]) ([] : List REntry) k es []
  rw [byKeyOf, h]
  simp only [alookup]
  by_cases he : (es.filter (fun e => e.gkey = k)).isEmpty
  · simp [he]
  · simp [he, foldl_append_singleton]

theorem byKey_keys_nodup (es : List REntry) : ((byKeyOf es).map Prod.fst).Nodup := by
  exact nodup_keys_foldl_upsert (fun e : REntry => e.gkey) (fun e vs => vs ++ [e]) [] es []
    (by simp)

theorem byCM_keys_nodup (b : List (GKey × List REntry)) :
    ((byCMOf b).map Prod.fst).Nodup := by
  exact nodup_keys_foldl_upsert (fun p : GKey × List REntry => (p.1.2.1, p.1.2.2))
    (fun p ks => addKind ks p.1.1 p.2) ⟨[], [], []⟩ b [] (by simp)

/-- The `by_cm` bucket for annotation kind `a` under key `(c, m)` is exactly
the filter of the entries with grouping key `(a, c, m)`. -/
theorem byCM_bucket (es : List REntry) (c m : String) (a : Ann) :
    ((alookup (byCMOf (byKeyOf es)) (c, m)).getD ⟨[], [], []⟩).ofAnn a =
      es.filter (fun e => e.gkey = (a, c, m)) := by
  have h := alookup_foldl_upsert (fun p : GKey × List REntry => (p.1.2.1, p.1.2.2))
    (fun p ks => addKind ks p.1.1 p.2) (⟨[], [], []⟩ : Kinds) (c, m) (byKeyOf es) []
  rw [byCMOf, h]
  simp only [alookup]
  set rel := (byKeyOf es).filter (fun p => (p.1.2.1, p.1.2.2) = (c, m)) with hrel
  have hofAnn : (rel.foldl (fun ks p => addKind ks p.1.1 p.2) ⟨[], [], []⟩).ofAnn a =
      (rel.filter (fun p => p.1.1 = a)).flatMap (fun p => p.2) := by
    rw [foldl_addKind_ofAnn]
    simp [Kinds.ofAnn]
    cases a <;> simp [Kinds.ofAnn]
  have hrel2 : rel.filter (fun p => p.1.1 = a) =
      (byKeyOf es).filter (fun p => p.1 = (a, c, m)) := by
    rw [hrel, List.filter_filter]
    apply List.filter_congr
    intro p _
    by_cases h1 : p.1.1 = a <;> by_cases h2 : (p.1.2.1, p.1.2.2) = (c, m) <;>
      simp only [Prod.mk.injEq] at h2 ⊢ <;>
      simp [h1, h2, Prod.ext_iff]
  have hsingle := filter_key_of_nodup (β := List REntry) (a, c, m) (byKeyOf es)
    (byKey_keys_nodup es)
  by_cases he : rel.isEmpty
  · have hnil : rel = [] := List.isEmpty_iff.mp he
    have : (byKeyOf es).filter (fun p => p.1 = (a, c, m)) = [] := by
      rw [← hrel2, hnil]
      simp
    rw [hsingle] at this
    have hlk : alookup (byKeyOf es) (a, c, m) = none := by
      cases hv : alookup (byKeyOf es) (a, c, m)
      · rfl
      · rw [hv] at this; simp at this
    rw [byKey_lookup] at hlk
    by_cases hfe : (es.filter (fun e => e.gkey = (a, c, m))).isEmpty
    · simp [he, Kinds.ofAnn, List.isEmpty_iff.mp hfe]
      cases a <;> simp [Kinds.ofAnn]
    · simp [hfe] at hlk
  · simp only [he, Bool.false_eq_true, if_false, Option.getD_some]
    rw [hofAnn, hrel2, hsingle, byKey_lookup]
    by_cases hfe : (es.filter (fun e => e.gkey = (a, c, m))).isEmpty
    · simp [hfe, List.isEmpty_iff.mp hfe]
    · simp [hfe]

/-! ### Lemmas: sorted deduplicated mod lists -/

theorem pyStrLtB_iff_lex : ∀ cs ds : List Char, pyStrLtB cs ds = true ↔ List.Lex (· < ·) cs ds := by
  intro cs
  induction cs with
  | nil =>
    intro ds
    cases ds with
    | nil =>
      simp only [pyStrLtB, Bool.false_eq_true, false_iff]
      intro h
      cases h
    | cons b bs =>
      simp only [pyStrLtB, true_iff]
      exact List.Lex.nil
  | cons a as ih =>
    intro ds
    cases ds with
    | nil =>
      simp only [pyStrLtB, Bool.false_eq_true, false_iff]
      intro h
      cases h
    | cons b bs =>
      simp only [pyStrLtB]
      by_cases hab : a < b
      · simp only [if_pos hab, true_iff]
        exact List.Lex.rel hab
      · rw [if_neg hab]
        by_cases hba : b < a
        · simp only [if_pos hba, Bool.false_eq_true, false_iff]
          intro h
          cases h with
          | rel h' => exact absurd h' hab
          | cons h' => exact absurd hba (lt_irrefl a)
        · rw [if_neg hba]
          have hab2 : a = b := by
            rcases lt_trichotomy a b with h | h | h
            · exact absurd h hab
            · exact h
            · exact absurd h hba
          subst hab2
          rw [ih bs]
          constructor
          · intro h
            exact List.Lex.cons h
          · intro h
            cases h with
            | rel h' => exact absurd h' hab
            | cons h' => exact h'

theorem pyStrLt_iff (a b : String) : pyStrLt a b = true ↔ a < b := by
  rw [pyStrLt, pyStrLtB_iff_lex, String.lt_iff_toList_lt]
  exact Iff.rfl

theorem mem_insertUniq (a : String) :
    ∀ (l : List String) (b : String), b ∈ insertUniq a l → b = a ∨ b ∈ l := by
  intro l
  induction l with
  | nil => intro b hb; simp [insertUniq] at hb; exact Or.inl hb
  | cons x xs ih =>
    intro b hb
    rw [insertUniq] at hb
    by_cases h1 : pyStrLt a x = true
    · rw [if_pos h1] at hb
      rcases List.mem_cons.mp hb with rfl | hb'
      · exact Or.inl rfl
      · exact Or.inr hb'
    · rw [if_neg h1] at hb
      by_cases h2 : a = x
      · rw [if_pos h2] at hb
        exact Or.inr hb
      · rw [if_neg h2] at hb
        rcases List.mem_cons.mp hb with rfl | hb'
        · exact Or.inr (List.mem_cons_self b xs)
        · rcases ih b hb' with hb'' | hb''
          · exact Or.inl hb''
          · exact Or.inr (List.mem_cons_of_mem x hb'')

theorem sorted_insertUniq (a : String) :
    ∀ (l : List String), l.Sorted (· < ·) → (insertUniq a l).Sorted (· < ·) := by
  intro l
  induction l with
  | nil => intro _; simp [insertUniq]
  | cons x xs ih =>
    intro h
    rw [List.sorted_cons] at h
    rw [insertUniq]
    by_cases h1 : pyStrLt a x = true
    · rw [if_pos h1, List.sorted_cons]
      have h1' : a < x := (pyStrLt_iff a x).mp h1
      refine ⟨?_, List.sorted_cons.mpr h⟩
      intro c hc
      rcases List.mem_cons.mp hc with rfl | hc'
      · exact h1'
      · exact lt_trans h1' (h.1 c hc')
    · rw [if_neg h1]
      by_cases h2 : a = x
      · rw [if_pos h2, List.sorted_cons]
        exact h
      · rw [if_neg h2, List.sorted_cons]
        refine ⟨?_, ih h.2⟩
        intro c hc
        rcases mem_insertUniq a xs c hc with hca | hc'
        · rw [hca]
          rcases lt_trichotomy a x with hlt | heq | hgt
          · exact absurd ((pyStrLt_iff a x).mpr hlt) h1
          · exact absurd heq h2
          · exact hgt
        · exact h.1 c hc'

theorem sorted_sortedDedup : ∀ l : List String, (sortedDedup l).Sorted (· < ·) := by
  intro l
  induction l with
  | nil => simp [sortedDedup]
  | cons x xs ih => exact sorted_insertUniq x (sortedDedup xs) ih

theorem sortedMods_sorted (l : List REntry) :
    (sortedMods l).Nodup ∧ (sortedMods l).Sorted (· < ·) := by
  have hs := sorted_sortedDedup (l.map (·.mod))
  exact ⟨hs.imp ne_of_lt, hs⟩

/-! ### Lemmas: the impact scorer -/

theorem exceptBind_ok {α β : Type} (x : Except Unit α) (f : α → Except Unit β) (b : β) :
    (x >>= f) = .ok b ↔ ∃ a, x = .ok a ∧ f a = .ok b := by
  cases x with
  | error e => simp [Bind.bind, Except.bind]
  | ok a => simp [Bind.bind, Except.bind]

theorem exceptPure_ok {α : Type} (a b : α) : (pure a : Except Unit α) = .ok b ↔ a = b := by
  constructor
  · intro h
    exact Except.ok.inj h
  · intro h
    rw [h]
    rfl

theorem getE_ok_any {cfg : JVal} {k : String} {v : JVal} (h : cfg.getE k = .ok v)
    (k' : String) : ∃ v', cfg.getE k' = .ok v' := by
  cases cfg <;> first
    | exact ⟨_, rfl⟩
    | exact absurd h (by simp [JVal.getE])

theorem sevRank_le4 (s : String) : sevRank s ≤ 4 := by
  rw [sevRank]
  split_ifs <;> omega

theorem sevE_ok_mem (t : JVal) (s : Int) (v : String) (h : severityE t s = .ok v) :
    v = "Low" ∨ v = "Medium" ∨ v = "High" ∨ v = "Critical" := by
  rw [severityE, exceptBind_ok] at h
  obtain ⟨crit, _, h⟩ := h
  by_cases h1 : crit ≤ s
  · rw [if_pos h1, exceptPure_ok] at h
    exact Or.inr (Or.inr (Or.inr h.symm))
  · rw [if_neg h1, exceptBind_ok] at h
    obtain ⟨high, _, h⟩ := h
    by_cases h2 : high ≤ s
    · rw [if_pos h2, exceptPure_ok] at h
      exact Or.inr (Or.inr (Or.inl h.symm))
    · rw [if_neg h2, exceptBind_ok] at h
      obtain ⟨med, _, h⟩ := h
      by_cases h3 : med ≤ s
      · rw [if_pos h3, exceptPure_ok] at h
        exact Or.inr (Or.inl h.symm)
      · rw [if_neg h3, exceptPure_ok] at h
        exact Or.inl h.symm

/-- Monotonicity of the severity ladder: a larger score never gets a lower
tier (and never fails when the smaller score succeeded). -/
theorem sevE_mono (t : JVal) (s1 s2 : Int) (v1 : String) (hs : s1 ≤ s2)
    (h : severityE t s1 = .ok v1) :
    ∃ v2, severityE t s2 = .ok v2 ∧ sevRank v1 ≤ sevRank v2 := by
  rw [severityE, exceptBind_ok] at h
  obtain ⟨crit, hcrit, h⟩ := h
  by_cases h1 : crit ≤ s1
  · rw [if_pos h1, exceptPure_ok] at h
    refine ⟨"Critical", ?_, ?_⟩
    · rw [severityE, exceptBind_ok]
      exact ⟨crit, hcrit, by rw [if_pos (le_trans h1 hs)]; rfl⟩
    · rw [← h]
  · rw [if_neg h1, exceptBind_ok] at h
    obtain ⟨high, hhigh, h⟩ := h
    by_cases hc2 : crit ≤ s2
    · refine ⟨"Critical", ?_, ?_⟩
      · rw [severityE, exceptBind_ok]
        exact ⟨crit, hcrit, by rw [if_pos hc2]; rfl⟩
      · exact sevRank_le4 v1
    · by_cases h2 : high ≤ s1
      · rw [if_pos h2, exceptPure_ok] at h
        refine ⟨"High", ?_, ?_⟩
        · rw [severityE, exceptBind_ok]
          refine ⟨crit, hcrit, ?_⟩
          rw [if_neg hc2, exceptBind_ok]
          exact ⟨high, hhigh, by rw [if_pos (le_trans h2 hs)]; rfl⟩
        · rw [← h]
      · rw [if_neg h2, exceptBind_ok] at h
        obtain ⟨med, hmed, h⟩ := h
        by_cases hh2 : high ≤ s2
        · refine ⟨"High", ?_, ?_⟩
          · rw [severityE, exceptBind_ok]
            refine ⟨crit, hcrit, ?_⟩
            rw [if_neg hc2, exceptBind_ok]
            exact ⟨high, hhigh, by rw [if_pos hh2]; rfl⟩
          · by_cases h3 : med ≤ s1
            · rw [if_pos h3, exceptPure_ok] at h
              rw [← h]
              rw [show sevRank "Medium" = 2 from rfl, show sevRank "High" = 3 from rfl]
              omega
            · rw [if_neg h3, exceptPure_ok] at h
              rw [← h]
              rw [show sevRank "Low" = 1 from rfl, show sevRank "High" = 3 from rfl]
              omega
        · by_cases h3 : med ≤ s1
          · rw [if_pos h3, exceptPure_ok] at h
            refine ⟨"Medium", ?_, ?_⟩
            · rw [severityE, exceptBind_ok]
              refine ⟨crit, hcrit, ?_⟩
              rw [if_neg hc2, exceptBind_ok]
              refine ⟨high, hhigh, ?_⟩
              rw [if_neg hh2, exceptBind_ok]
              exact ⟨med, hmed, by rw [if_pos (le_trans h3 hs)]; rfl⟩
            · rw [← h]
          · rw [if_neg h3, exceptPure_ok] at h
            by_cases hm2 : med ≤ s2
            · refine ⟨"Medium", ?_, ?_⟩
              · rw [severityE, exceptBind_ok]
                refine ⟨crit, hcrit, ?_⟩
                rw [if_neg hc2, exceptBind_ok]
                refine ⟨high, hhigh, ?_⟩
                rw [if_neg hh2, exceptBind_ok]
                exact ⟨med, hmed, by rw [if_pos hm2]; rfl⟩
              · rw [← h]
                rw [show sevRank "Low" = 1 from rfl, show sevRank "Medium" = 2 from rfl]
                omega
            · refine ⟨"Low", ?_, ?_⟩
              · rw [severityE, exceptBind_ok]
                refine ⟨crit, hcrit, ?_⟩
                rw [if_neg hc2, exceptBind_ok]
                refine ⟨high, hhigh, ?_⟩
                rw [if_neg hh2, exceptBind_ok]
                exact ⟨med, hmed, by rw [if_neg hm2]; rfl⟩
              · rw [← h]

/-- A successful `compute_impact_unified` body always carries one of the
four severity labels. -/
theorem body_ok_sev (cfg : JVal) (cls meth : String) (mods : List String)
    (entries : List REntry) (wrap : Bool) (r : ImpactResult)
    (h : computeBodyE cfg cls meth mods entries wrap = .ok r) :
    r.severity = "Low" ∨ r.severity = "Medium" ∨ r.severity = "High" ∨
      r.severity = "Critical" := by
  rw [computeBodyE, exceptBind_ok] at h
  obtain ⟨w0, _, h⟩ := h
  rw [exceptBind_ok] at h
  obtain ⟨t0, _, h⟩ := h
  rw [exceptBind_ok] at h
  obtain ⟨base, _, h⟩ := h
  cases wrap with
  | false =>
    simp only [Bool.false_eq_true, if_false] at h
    rw [pure_bind, exceptBind_ok] at h
    obtain ⟨sev, hsev, h⟩ := h
    rw [exceptPure_ok] at h
    rw [← h]
    exact sevE_ok_mem _ _ _ hsev
  | true =>
    simp only [if_true] at h
    rw [exceptBind_ok] at h
    obtain ⟨bb, _, h⟩ := h
    rw [pure_bind, exceptBind_ok] at h
    obtain ⟨sev, hsev, h⟩ := h
    rw [exceptPure_ok] at h
    rw [← h]
    exact sevE_ok_mem _ _ _ hsev

/-- Adding the (successfully converted) wrap bonus to a succeeding baseline
run keeps the body succeeding, with a tier at least as high. -/
theorem body_ok_mono (cfg : JVal) (cls meth : String) (mods : List String)
    (entries : List REntry) (b : Int) (hb : wrapBonusE cfg = .ok b) (hbn : 0 ≤ b)
    (v1 : ImpactResult) (h : computeBodyE cfg cls meth mods entries false = .ok v1) :
    ∃ v2, computeBodyE cfg cls meth mods entries true = .ok v2 ∧
      sevRank v1.severity ≤ sevRank v2.severity := by
  rw [wrapBonusE, exceptBind_ok] at hb
  obtain ⟨w0, hw0, hb2⟩ := hb
  rw [computeBodyE, exceptBind_ok] at h
  obtain ⟨w0', hw0', h⟩ := h
  rw [hw0] at hw0'
  obtain rfl : w0 = w0' := Except.ok.inj hw0'
  rw [exceptBind_ok] at h
  obtain ⟨t0, ht0, h⟩ := h
  rw [exceptBind_ok] at h
  obtain ⟨base, hbase, h⟩ := h
  simp only [Bool.false_eq_true, if_false] at h
  rw [pure_bind, exceptBind_ok] at h
  obtain ⟨sev1, hsev1, h⟩ := h
  rw [exceptPure_ok] at h
  obtain ⟨sev2, hsev2, hrank⟩ :=
    sevE_mono (jor t0 (.obj [])) base (base + b) sev1 (by omega) hsev1
  refine ⟨{ severity := sev2, message := mkMessage cls true }, ?_, ?_⟩
  · rw [computeBodyE, exceptBind_ok]
    refine ⟨w0, hw0, ?_⟩
    rw [exceptBind_ok]
    refine ⟨t0, ht0, ?_⟩
    rw [exceptBind_ok]
    refine ⟨base, hbase, ?_⟩
    simp only [if_true]
    rw [exceptBind_ok]
    refine ⟨b, hb2, ?_⟩
    rw [pure_bind, exceptBind_ok]
    exact ⟨sev2, hsev2, by rw [exceptPure_ok]⟩
  · rw [← h]
    exact hrank

/-! ### Claim theorems -/

/-- C1.  For every scan result and `(class, method)` key: when the key's
`replaceMethod` occurrences span at most one distinct file it never appears
in `conflicts`; when they span 2 or more distinct files the `conflicts`
list holds exactly one group for the key, whose `count` is the total number
of `replaceMethod` occurrences (its occurrence list is the full filter),
not the file count.  Stated as: the key's groups in `conflicts` are the
singleton exactly under the ≥ 2-distinct-files condition, else empty. -/
theorem conflict_threshold_per_key (es : List REntry) (c m : String) :
    (conflictsOf es).filter (fun g => (g.cls, g.method) = (c, m)) =
      (if 1 < distinctFiles (es.filter (fun e => e.gkey = (Ann.replaceMethod, c, m))) then
        [{ cls := c, method := m,
           count := (es.filter (fun e => e.gkey = (Ann.replaceMethod, c, m))).length,
           mods := sortedMods (es.filter (fun e => e.gkey = (Ann.replaceMethod, c, m))),
           occurrences := es.filter (fun e => e.gkey = (Ann.replaceMethod, c, m)) }]
       else []) := by
  have hF : ∀ (p : (String × String) × Kinds) (g : ConflictGroup),
      (if !p.2.replace.isEmpty && 1 < distinctFiles p.2.replace then
        some { cls := p.1.1, method := p.1.2, count := p.2.replace.length,
               mods := sortedMods p.2.replace, occurrences := p.2.replace }
      else none) = some g → (g.cls, g.method) = p.1 := by
    intro p g hp
    split at hp
    · cases hp; rfl
    · cases hp
  have hFM := filterMap_filter_key
    (fun p : (String × String) × Kinds =>
      if !p.2.replace.isEmpty && 1 < distinctFiles p.2.replace then
        some { cls := p.1.1, method := p.1.2, count := p.2.replace.length,
               mods := sortedMods p.2.replace, occurrences := p.2.replace }
      else none)
    (fun g : ConflictGroup => (g.cls, g.method)) (c, m) hF
    (byCMOf (byKeyOf es)) (byCM_keys_nodup (byKeyOf es))
  have hbucket := byCM_bucket es c m .replaceMethod
  rw [conflictsOf, hFM]
  cases hv : alookup (byCMOf (byKeyOf es)) (c, m) with
  | none =>
    rw [hv] at hbucket
    simp only [Option.getD_none, Kinds.ofAnn] at hbucket
    rw [← hbucket]
    have h0 : distinctFiles ([] : List REntry) = 0 := rfl
    simp [h0]
  | some v =>
    rw [hv] at hbucket
    simp only [Option.getD_some, Kinds.ofAnn] at hbucket
    rw [← hbucket]
    by_cases hd : 1 < distinctFiles v.replace
    · have hne : v.replace ≠ [] := by
        intro h0
        rw [h0] at hd
        exact absurd hd (by decide)
      have h1 : v.replace.isEmpty = false := by
        simpa [List.isEmpty_iff] using hne
      simp [hd, h1]
    · simp [hd]

/-- C6.  For every scan result and key: `replace_wrap_coexistence` holds a
group for the key exactly when the key has at least one `replaceMethod`
occurrence and at least one `wrapMethod` occurrence — no distinct-file
threshold.  In particular one single file containing both (the `sfEs`
sample) triggers the group while producing no ConflictGroup and no
WrapCoexistenceGroup. -/
theorem replace_wrap_no_threshold :
    (∀ (es : List REntry) (c m : String),
      (replaceWrapOf es).filter (fun g => (g.cls, g.method) = (c, m)) =
        (if !(es.filter (fun e => e.gkey = (Ann.replaceMethod, c, m))).isEmpty &&
            !(es.filter (fun e => e.gkey = (Ann.wrapMethod, c, m))).isEmpty then
          [{ cls := c, method := m,
             replace_count := (es.filter (fun e => e.gkey = (Ann.replaceMethod, c, m))).length,
             wrap_count := (es.filter (fun e => e.gkey = (Ann.wrapMethod, c, m))).length,
             mods_replace := sortedMods (es.filter (fun e => e.gkey = (Ann.replaceMethod, c, m))),
             mods_wrap := sortedMods (es.filter (fun e => e.gkey = (Ann.wrapMethod, c, m))),
             occurrences_replace := es.filter (fun e => e.gkey = (Ann.replaceMethod, c, m)),
             occurrences_wrap := es.filter (fun e => e.gkey = (Ann.wrapMethod, c, m)) }]
         else [])) ∧
    conflictsOf sfEs = [] ∧ wrapCoexistenceOf sfEs = [] ∧ replaceWrapOf sfEs = [sfRW] := by
  refine ⟨?_, by decide, by decide, by decide⟩
  intro es c m
  have hF : ∀ (p : (String × String) × Kinds) (g : RWGroup),
      (if !p.2.replace.isEmpty && !p.2.wrap.isEmpty then
        some { cls := p.1.1, method := p.1.2,
               replace_count := p.2.replace.length, wrap_count := p.2.wrap.length,
               mods_replace := sortedMods p.2.replace, mods_wrap := sortedMods p.2.wrap,
               occurrences_replace := p.2.replace, occurrences_wrap := p.2.wrap }
      else none) = some g → (g.cls, g.method) = p.1 := by
    intro p g hp
    split at hp
    · cases hp; rfl
    · cases hp
  have hFM := filterMap_filter_key
    (fun p : (String × String) × Kinds =>
      if !p.2.replace.isEmpty && !p.2.wrap.isEmpty then
        some { cls := p.1.1, method := p.1.2,
               replace_count := p.2.replace.length, wrap_count := p.2.wrap.length,
               mods_replace := sortedMods p.2.replace, mods_wrap := sortedMods p.2.wrap,
               occurrences_replace := p.2.replace, occurrences_wrap := p.2.wrap }
      else none)
    (fun g : RWGroup => (g.cls, g.method)) (c, m) hF
    (byCMOf (byKeyOf es)) (byCM_keys_nodup (byKeyOf es))
  have hbr := byCM_bucket es c m .replaceMethod
  have hbw := byCM_bucket es c m .wrapMethod
  rw [replaceWrapOf, hFM]
  cases hv : alookup (byCMOf (byKeyOf es)) (c, m) with
  | none =>
    rw [hv] at hbr hbw
    simp only [Option.getD_none, Kinds.ofAnn] at hbr hbw
    rw [← hbr, ← hbw]
    simp
  | some v =>
    rw [hv] at hbr hbw
    simp only [Option.getD_some, Kinds.ofAnn] at hbr hbw
    rw [← hbr, ← hbw]
    by_cases hc2 : (!v.replace.isEmpty && !v.wrap.isEmpty) = true <;> simp [hc2]

/-- C10.  Every `mods` list in a ConflictGroup or WrapCoexistenceGroup, and
every `mods_replace`/`mods_wrap` list in a ReplaceWrapCoexistenceGroup, is
duplicate-free and strictly ascending in string order (they are built as
`sorted(set(...))` of the contributing occurrences' mod ids). -/
theorem group_mods_sorted (es : List REntry) :
    (∀ g ∈ conflictsOf es, g.mods.Nodup ∧ g.mods.Sorted (· < ·)) ∧
    (∀ g ∈ wrapCoexistenceOf es, g.mods.Nodup ∧ g.mods.Sorted (· < ·)) ∧
    (∀ g ∈ replaceWrapOf es,
      (g.mods_replace.Nodup ∧ g.mods_replace.Sorted (· < ·)) ∧
      (g.mods_wrap.Nodup ∧ g.mods_wrap.Sorted (· < ·))) := by
  refine ⟨?_, ?_, ?_⟩
  · intro g hg
    rw [conflictsOf] at hg
    obtain ⟨p, _, hFp⟩ := List.mem_filterMap.mp hg
    split at hFp
    · cases hFp
      exact sortedMods_sorted _
    · cases hFp
  · intro g hg
    rw [wrapCoexistenceOf] at hg
    obtain ⟨p, _, hFp⟩ := List.mem_filterMap.mp hg
    split at hFp
    · cases hFp
      exact sortedMods_sorted _
    · cases hFp
  · intro g hg
    rw [replaceWrapOf] at hg
    obtain ⟨p, _, hFp⟩ := List.mem_filterMap.mp hg
    split at hFp
    · cases hFp
      exact ⟨sortedMods_sorted _, sortedMods_sorted _⟩
    · cases hFp

/-- Witness for C10 at the concrete sample scan: the sample's conflict,
wrap-coexistence and replace/wrap groups all carry sorted, duplicate-free
mod lists. -/
theorem group_mods_sorted_witness :
    (sampleConflict.mods.Nodup ∧ sampleConflict.mods.Sorted (· < ·)) ∧
    (sampleWrapG.mods.Nodup ∧ sampleWrapG.mods.Sorted (· < ·)) ∧
    (sampleRW.mods_replace.Nodup ∧ sampleRW.mods_replace.Sorted (· < ·)) ∧
    (sampleRW.mods_wrap.Nodup ∧ sampleRW.mods_wrap.Sorted (· < ·)) := by
  obtain ⟨h1, h2, h3⟩ := group_mods_sorted sampleEs
  refine ⟨h1 sampleConflict ?_, h2 sampleWrapG ?_, ?_⟩
  · decide
  · decide
  · have := h3 sampleRW (by decide)
    exact ⟨this.1, this.2⟩

/-- C2.  Baseline ≤ overall: whenever the resolved config's
`wrap_coexist_bonus` converts to a non-negative integer, the severity tier
computed with `wrap_coexist=False` is never higher than the tier computed
with `wrap_coexist=True` on the same inputs (the safe empty severity ranks
lowest). -/
theorem baseline_le_overall (fsCfg : Option JVal) (cls meth : String) (mods : List String)
    (entries : List REntry) (config : Option JVal) (b : Int)
    (hb : wrapBonusE (resolveConfig fsCfg config) = .ok b) (hbn : 0 ≤ b) :
    sevRank (compute_impact_unified fsCfg cls meth mods entries config false).severity ≤
      sevRank (compute_impact_unified fsCfg cls meth mods entries config true).severity := by
  rw [compute_impact_unified, compute_impact_unified]
  cases hf : computeBodyE (resolveConfig fsCfg config) cls meth mods entries false with
  | error e => exact Nat.zero_le _
  | ok v1 =>
    obtain ⟨v2, hv2, hrank⟩ := body_ok_mono _ cls meth mods entries b hb hbn v1 hf
    rw [hv2]
    exact hrank

/-- Witness for C2: under the default config (bonus 12 ≥ 0), the concrete
baseline tier is no higher than the overall tier. -/
theorem baseline_le_overall_witness :
    wrapBonusE (resolveConfig none none) = .ok 12 ∧ (0 : Int) ≤ 12 ∧
    sevRank (compute_impact_unified none "Vehicle" "Go" ["A", "B", "C"] [] none false).severity ≤
      sevRank (compute_impact_unified none "Vehicle" "Go" ["A", "B", "C"] [] none true).severity :=
  ⟨rfl, by decide,
    baseline_le_overall none "Vehicle" "Go" ["A", "B", "C"] [] none 12 rfl (by decide)⟩

/-- C3.  Under the default config (thresholds 95/70/45), the severity ladder
treats thresholds as inclusive lower bounds in descending order: for every
score, the label is Critical iff 95 ≤ score, else High iff 70 ≤ score, else
Medium iff 45 ≤ score, else Low; and concretely `compute_impact_unified`
run on inputs whose total scores are 44, 45, 69, 70, 94 and 95 yields
Low, Medium, Medium, High, High, Critical (the six inputs score
2·10+12+12=44, 3·10+15=45, 6·10+3·3=69, 7·10=70, 7·10+12+12=94 and
8·10+15=95 under the default weights). -/
theorem severity_boundaries_default :
    (∀ s : Int, severityE defaultThresholds s =
        .ok (if 95 ≤ s then "Critical" else if 70 ≤ s then "High"
             else if 45 ≤ s then "Medium" else "Low")) ∧
    (compute_impact_unified none "QuestA" "UpdateX" ["A", "B"] [] none false).severity
      = "Low" ∧
    (compute_impact_unified none "Vehicle" "Go" ["A", "B", "C"] [] none false).severity
      = "Medium" ∧
    (compute_impact_unified none "Foo" "Bar" ["A", "B", "C", "D", "E", "F"] [sig3Entry]
      none false).severity = "Medium" ∧
    (compute_impact_unified none "Foo" "Bar" ["A", "B", "C", "D", "E", "F", "G"] []
      none false).severity = "High" ∧
    (compute_impact_unified none "QuestA" "UpdateX" ["A", "B", "C", "D", "E", "F", "G"] []
      none false).severity = "High" ∧
    (compute_impact_unified none "Vehicle" "Go" ["A", "B", "C", "D", "E", "F", "G", "H"] []
      none false).severity = "Critical" := by
  refine ⟨?_, by decide, by decide, by decide, by decide, by decide, by decide⟩
  intro s
  rw [severityE, exceptBind_ok]
  refine ⟨95, rfl, ?_⟩
  by_cases h1 : (95 : Int) ≤ s
  · rw [if_pos h1, if_pos h1]
    rfl
  · rw [if_neg h1, if_neg h1, exceptBind_ok]
    refine ⟨70, rfl, ?_⟩
    by_cases h2 : (70 : Int) ≤ s
    · rw [if_pos h2, if_pos h2]
      rfl
    · rw [if_neg h2, if_neg h2, exceptBind_ok]
      refine ⟨45, rfl, ?_⟩
      by_cases h3 : (45 : Int) ≤ s
      · rw [if_pos h3, if_pos h3]
        rfl
      · rw [if_neg h3, if_neg h3]
        rfl

/-- C4 counterexample: for root `/proj` and file
`/proj/SomeMod/r6/scripts/sub/File.reds`, the mod id `build_report` computes
is not `SomeMod` (the claim's value). -/
theorem mod_attribution_claim_cex :
    ¬ (modFor ["proj"] ["proj", "SomeMod", "r6", "scripts", "sub", "File.reds"] = "SomeMod") := by
  decide

/-- C4 (amended).  For root `/proj` and file
`/proj/SomeMod/r6/scripts/sub/File.reds` the computed mod id is `sub` — the
segment after the `r6/scripts` pair — per the first branch of the
`build_report` heuristic (the layout that makes the segment after
`r6/scripts` the mod name is a root at the game directory, e.g. file
`r6/scripts/SomeMod/File.reds`). -/
theorem mod_attribution_example :
    modFor ["proj"] ["proj", "SomeMod", "r6", "scripts", "sub", "File.reds"] = "sub" ∧
    modOf ["r6", "scripts", "SomeMod", "File.reds"] = "SomeMod" := by
  constructor <;> decide

/-- C5.  Flushing the pending buffer at a function declaration emits exactly
one Occurrence per (pending annotation, listed class) pair (`flushEntries`
is `pending.flatMap (classes.map ...)`): stacked annotations above one
`func` line yield one occurrence each naming that function, a two-class
annotation yields two occurrences, and a function with no pending
annotations yields none. -/
theorem scan_flush_pairs :
    (∀ (path : String) (st : ScanState) (idx : Nat) (line : String) (method : String),
      parseAnnLine line.data = none →
      isSkipLine line.data = false →
      hasFuncToken line.data = true →
      funcSearch line.data = some method →
      st.pending ≠ [] →
      scanStep path st idx line =
        { pending := [],
          entries := st.entries ++ flushEntries path method (pyStrip line) st.pending }) ∧
    (∀ path : String, scanLines path
        ["@replaceMethod(Foo)", "@wrapMethod(Foo)", "func Bar(a: Int32) -> Int32"] =
      [⟨.replaceMethod, "Foo", "Bar", "func Bar(a: Int32) -> Int32", path, 1⟩,
       ⟨.wrapMethod, "Foo", "Bar", "func Bar(a: Int32) -> Int32", path, 2⟩]) ∧
    (∀ path : String, scanLines path ["@replaceMethod(Foo, Bar)", "func Baz()"] =
      [⟨.replaceMethod, "Foo", "Baz", "func Baz()", path, 1⟩,
       ⟨.replaceMethod, "Bar", "Baz", "func Baz()", path, 1⟩]) ∧
    (∀ path : String, scanLines path ["func Baz()"] = []) := by
  refine ⟨?_, fun path => rfl, fun path => rfl, fun path => rfl⟩
  intro path st idx line method h1 h2 h3 h4 h5
  have h6 : st.pending.isEmpty = false := by
    simpa [List.isEmpty_iff] using h5
  simp only [scanStep, h1, h2, h3, h4, h6, Bool.false_eq_true, if_false]
  rw [if_pos trivial]

/-- Witness for C5: the flush equality at a concrete state holding two
stacked annotations above a concrete `func` line. -/
theorem scan_flush_pairs_witness :
    scanStep "w.reds" ⟨[(.replaceMethod, ["Foo"], 1), (.wrapMethod, ["Foo"], 2)], []⟩ 3
        "func Bar(a: Int32) -> Int32" =
      { pending := [],
        entries := [] ++ flushEntries "w.reds" "Bar" (pyStrip "func Bar(a: Int32) -> Int32")
          [(.replaceMethod, ["Foo"], 1), (.wrapMethod, ["Foo"], 2)] } :=
  scan_flush_pairs.1 "w.reds" ⟨[(.replaceMethod, ["Foo"], 1), (.wrapMethod, ["Foo"], 2)], []⟩
    3 "func Bar(a: Int32) -> Int32" "Bar" rfl rfl rfl rfl (by decide)

/-- C7 counterexample: with `config=None`, two calls with identical
arguments but different external `impact_config.json` states (absent vs. a
valid file with critical threshold 0) return different results — the
default-config fallback reads hidden external state. -/
theorem impact_determinism_cex :
    ¬ (compute_impact_unified none "Foo" "Foo" ["A"] [] none false =
       compute_impact_unified (some extCfgCritZero) "Foo" "Foo" ["A"] [] none false) := by
  decide

/-- C7 (amended).  `compute_impact_unified` is deterministic given the
external default-config state; when a truthy `config` argument is passed,
the result depends only on the arguments and is independent of the
external state (the hidden dependence exists only for a `None`/falsy
config, which falls back to `get_default_impact_config`). -/
theorem impact_determinism_with_config (fsCfg fsCfg' : Option JVal) (cls meth : String)
    (mods : List String) (entries : List REntry) (c : JVal) (wrap : Bool)
    (hc : c.truthy = true) :
    compute_impact_unified fsCfg cls meth mods entries (some c) wrap =
      compute_impact_unified fsCfg' cls meth mods entries (some c) wrap := by
  simp [compute_impact_unified, resolveConfig, hc]

/-- Witness for C7's amended theorem: passing the (truthy) default config
explicitly makes the two external states of the counterexample agree. -/
theorem impact_determinism_with_config_witness :
    JVal.truthy defaultImpactConfig = true ∧
    compute_impact_unified none "Foo" "Foo" ["A"] [] (some defaultImpactConfig) false =
      compute_impact_unified (some extCfgCritZero) "Foo" "Foo" ["A"]
        [] (some defaultImpactConfig) false :=
  ⟨rfl, impact_determinism_with_config none (some extCfgCritZero) "Foo" "Foo" ["A"] []
    defaultImpactConfig false rfl⟩

/-- C8.  `compute_impact_unified` never propagates an error: for all inputs
it either returns the safe empty result or a result whose severity is one
of the four labels; concretely a malformed (truthy non-dict) config
degrades to `{'severity': '', 'message': ''}`. -/
theorem impact_never_raises :
    (∀ (fsCfg : Option JVal) (cls meth : String) (mods : List String)
        (entries : List REntry) (config : Option JVal) (wrap : Bool),
      compute_impact_unified fsCfg cls meth mods entries config wrap = ⟨"", ""⟩ ∨
      ((compute_impact_unified fsCfg cls meth mods entries config wrap).severity = "Low" ∨
       (compute_impact_unified fsCfg cls meth mods entries config wrap).severity = "Medium" ∨
       (compute_impact_unified fsCfg cls meth mods entries config wrap).severity = "High" ∨
       (compute_impact_unified fsCfg cls meth mods entries config wrap).severity = "Critical")) ∧
    compute_impact_unified none "X" "Y" [] [] (some (.int 3)) false = ⟨"", ""⟩ := by
  refine ⟨?_, by decide⟩
  intro fsCfg cls meth mods entries config wrap
  rw [compute_impact_unified]
  cases hb : computeBodyE (resolveConfig fsCfg config) cls meth mods entries wrap with
  | error e => exact Or.inl rfl
  | ok r => exact Or.inr (body_ok_sev _ _ _ _ _ _ _ hb)

theorem parsePhase_flatMap :
    ∀ (files : List (String × Except Unit (List String))) (acc : List Entry),
    files.foldl (fun acc f => acc ++ scan_file f.2 f.1) acc =
      acc ++ files.flatMap (fun f => scan_file f.2 f.1) := by
  intro files
  induction files with
  | nil => intro acc; simp
  | cons f rest ih =>
    intro acc
    rw [List.foldl_cons, ih, List.flatMap_cons, List.append_assoc]

/-- C9.  An unreadable file yields an empty occurrence list from
`scan_file` (the `except` branch of the read), and contributes nothing to
the parse phase: a single unreadable file never fails the whole scan. -/
theorem unreadable_file_isolated :
    (∀ (e : Unit) (path : String), scan_file (.error e) path = []) ∧
    (∀ (pre post : List (String × Except Unit (List String))) (path : String) (e : Unit),
      parsePhase (pre ++ (path, Except.error e) :: post) = parsePhase (pre ++ post)) := by
  refine ⟨fun e path => rfl, ?_⟩
  intro pre post path e
  rw [parsePhase, parsePhase, parsePhase_flatMap, parsePhase_flatMap]
  simp [scan_file]

end Redscript
